import Mathlib

/-!
Verification development for the GRANDPA strict justification verifier
(`bridges/primitives/header-chain/src/justification/verification/strict.rs`)
and the bridge-hub-polkadot multisig weight table
(`parachains/runtimes/bridge-hubs/bridge-hub-polkadot/src/weights/pallet_multisig.rs`).

The strict policy callbacks are translated directly from `strict.rs`.  The
generic verification engine (`JustificationVerifier::verify_justification`,
the ancestry resolver and the data types it drives) lives outside the
available sources, so those parts are modelled from the specification
(sections 3, 4.1 and 4.2 of the design document) and marked as such.
-/

namespace GrandpaStrict

/-- Opaque authority identifier (public key).  Totally ordered; modelled as `Nat`. -/
abbrev AuthorityId := Nat

/-- Opaque header hash, modelled as `Nat`. -/
abbrev Hash := Nat

/-- Header number, totally ordered; modelled as `Nat`. -/
abbrev Number := Nat

/-- Modelled from the spec: abstract block header (identity = hash,
ordinal = number, parent linkage).  The concrete `HeaderT` type is supplied
by the hosting chain and is not under the available sources. -/
structure Header where
  hash : Hash
  number : Number
  parent_hash : Hash
deriving DecidableEq, Repr

/-- Modelled from the spec: a single authority's signed vote
`{ target_hash, target_number, authority_id, signature }`.  The concrete
`SignedPrecommit` type is declared outside the available sources. -/
structure SignedPrecommit where
  target_hash : Hash
  target_number : Number
  id : AuthorityId
  signature : Nat
deriving DecidableEq, Repr

/-- Modelled from the spec: the justification
`{ round, commit target (hash, number), precommits, votes ancestries }`. -/
structure GrandpaJustification where
  round : Nat
  commit_target_hash : Hash
  commit_target_number : Number
  precommits : List SignedPrecommit
  votes_ancestries : List Header
deriving DecidableEq, Repr

/-- Modelled from the spec: the verification context: the authority set
(id to voting weight), the quorum threshold and the set id used to build
the signed message. -/
structure JustificationVerificationContext where
  authorities : List (AuthorityId × Nat)
  threshold : Nat
  set_id : Nat
deriving DecidableEq, Repr

/-- Per-precommit error causes, from `verification/mod.rs` as referenced by
`strict.rs`. -/
inductive PrecommitError where
  | RedundantAuthorityVote
  | DuplicateAuthorityVote
  | UnknownAuthorityVote
  | UnrelatedAncestryVote
  | InvalidAuthoritySignature
deriving DecidableEq, Repr

/-- Verification errors surfaced to the caller.  `Precommit` carries the
offending vote's index, as the spec requires for diagnostics. -/
inductive Error where
  | Precommit (idx : Nat) (e : PrecommitError)
  | InsufficientSignedWeight
  | RedundantVotesAncestries
deriving DecidableEq, Repr

/-- Control signal returned by some classifier callbacks: continue with the
default processing (`Run`) or skip this vote and continue (`Skip`). -/
inductive IterationFlow where
  | Run
  | Skip
deriving DecidableEq, Repr

/-- The strict policy's working state: the set of authorities already
credited with an accepted vote (`votes: BTreeSet<AuthorityId>` in
`strict.rs`), modelled as a duplicate-free list. -/
structure StrictJustificationVerifier where
  votes : List AuthorityId
deriving DecidableEq, Repr

namespace StrictJustificationVerifier

/-- Source `strict.rs` lines 37-42: a redundant vote is always rejected. -/
def process_redundant_vote (_s : StrictJustificationVerifier) (_precommit_idx : Nat) :
    Except PrecommitError IterationFlow :=
  .error .RedundantAuthorityVote

/-- Source `strict.rs` lines 44-58: only the first vote from an authority is
accepted; a second vote from an authority already in `votes` is a
duplicate. -/
def process_known_authority_vote (s : StrictJustificationVerifier)
    (_precommit_idx : Nat) (signed : SignedPrecommit) :
    Except PrecommitError IterationFlow :=
  if signed.id ∈ s.votes then
    .error .DuplicateAuthorityVote
  else
    .ok .Run

/-- Source `strict.rs` lines 60-65: votes from unknown authorities are always
rejected. -/
def process_unknown_authority_vote (_s : StrictJustificationVerifier)
    (_precommit_idx : Nat) : Except PrecommitError Unit :=
  .error .UnknownAuthorityVote

/-- Source `strict.rs` lines 67-72: votes whose ancestry cannot be connected to the
target are always rejected. -/
def process_unrelated_ancestry_vote (_s : StrictJustificationVerifier)
    (_precommit_idx : Nat) : Except PrecommitError IterationFlow :=
  .error .UnrelatedAncestryVote

/-- Source `strict.rs` lines 74-79: votes with invalid signatures are always
rejected. -/
def process_invalid_signature_vote (_s : StrictJustificationVerifier)
    (_precommit_idx : Nat) : Except PrecommitError Unit :=
  .error .InvalidAuthoritySignature

/-- Source `strict.rs` lines 81-83: a valid vote inserts the authority into the
accepted set (`self.votes.insert(signed.id.clone())`). -/
def process_valid_vote (s : StrictJustificationVerifier)
    (signed : SignedPrecommit) : StrictJustificationVerifier :=
  { votes := s.votes.insert signed.id }

/-- Source `strict.rs` lines 85-90: leftover (unused) votes ancestries always fail
verification. -/
def process_redundant_votes_ancestries (_s : StrictJustificationVerifier)
    (_redundant_votes_ancestries : List Hash) : Except Error Unit :=
  .error .RedundantVotesAncestries

end StrictJustificationVerifier

/-- Look up an authority's weight in the context's authority set. -/
def lookupWeight : List (AuthorityId × Nat) → AuthorityId → Option Nat
  | [], _ => none
  | (a, w) :: rest, id => if a = id then some w else lookupWeight rest id

/-- Find the ancestry header with the given hash among the supplied votes
ancestries. -/
def findHeader : List Header → Hash → Option Header
  | [], _ => none
  | h :: rest, x => if h.hash = x then some h else findHeader rest x

/-- Modelled from the spec (section 4.2, Ancestry Resolver; not under the
available sources): backward walk following parent-hash links from the
precommit's target `(curHash, curNum)` toward the claimed finalized target
`(tHash, tNum)`, looking up each intermediate header in the supplied
ancestry collection, until the target is reached (success: the list of
touched ancestry-header hashes is returned, to be marked visited) or a
number at or below the target's is reached without a match, or a parent is
unresolvable (failure).  Cycles are rejected implicitly by the
monotonically-decreasing number invariant, here realised by decrementing
the tracked number at every parent step.  A precommit whose target is the
claimed target succeeds with an empty visited list. -/
def ancestryRoute (headers : List Header) (tHash : Hash) (tNum : Number) :
    Hash → Number → Option (List Hash)
  | curHash, 0 =>
      if curHash = tHash then some [] else none
  | curHash, n + 1 =>
      if curHash = tHash then some []
      else if n + 1 ≤ tNum then none
      else
        match findHeader headers curHash with
        | none => none
        | some h =>
            match ancestryRoute headers tHash tNum h.parent_hash n with
            | none => none
            | some r => some (curHash :: r)

/-- The canonical signed message: (round, set id, target hash, target
number).  Signature verification itself is an external capability
`sigOk : AuthorityId → message → signature → Bool`. -/
abbrev Message := Nat × Nat × Hash × Number

/-- Engine working state threaded through the precommit loop: the strict
classifier's state, the list of accepted signed precommits (in acceptance
order), the visited ancestry-header hashes, and the accumulated signed
weight. -/
structure LoopState where
  verifier : StrictJustificationVerifier
  accepted : List SignedPrecommit
  visited : List Hash
  cumulativeWeight : Nat
deriving DecidableEq, Repr

/-- Modelled from the spec (section 4.1, step 1; the generic engine is not
under the available sources), instantiated with the strict classifier.
The body of the loop, for the precommit at index `idx`.  Returns the state
for the next iteration, or the error that aborts the whole verification:
(a) verify the signature; if invalid, invoke the invalid-signature hook
    (an error aborts, success skips the vote);
(b) look up the authority's weight; if absent, invoke the
    unknown-authority hook;
(c) walk the ancestry back to the claimed finalized target, marking the
    touched headers visited; on failure invoke the unrelated-ancestry hook;
(d) if the authority is already in the accepted set, invoke the
    redundant-vote hook when the identical vote is repeated verbatim, and
    the known-authority hook otherwise (`Run` continues to (e), `Skip`
    moves to the next precommit);
(e) otherwise invoke the valid-vote hook: record the authority and
    accumulate its weight. -/
def processPrecommit (sigOk : AuthorityId → Message → Nat → Bool)
    (context : JustificationVerificationContext) (round : Nat)
    (tHash : Hash) (tNum : Number) (votes_ancestries : List Header)
    (signed : SignedPrecommit) (idx : Nat) (st : LoopState) :
    Except Error LoopState :=
  if sigOk signed.id (round, context.set_id, signed.target_hash, signed.target_number)
      signed.signature = false then
    match st.verifier.process_invalid_signature_vote idx with
    | .error e => .error (.Precommit idx e)
    | .ok _ => .ok st
  else
    match lookupWeight context.authorities signed.id with
    | none =>
        match st.verifier.process_unknown_authority_vote idx with
        | .error e => .error (.Precommit idx e)
        | .ok _ => .ok st
    | some w =>
        match ancestryRoute votes_ancestries tHash tNum signed.target_hash
            signed.target_number with
        | none =>
            match st.verifier.process_unrelated_ancestry_vote idx with
            | .error e => .error (.Precommit idx e)
            | .ok _ => .ok st
        | some route =>
            let st1 : LoopState := { st with visited := st.visited ++ route }
            let accepted : LoopState :=
              { verifier := st1.verifier.process_valid_vote signed,
                accepted := st1.accepted ++ [signed],
                visited := st1.visited,
                cumulativeWeight := st1.cumulativeWeight + w }
            if signed.id ∈ st1.verifier.votes then
              if signed ∈ st1.accepted then
                match st1.verifier.process_redundant_vote idx with
                | .error e => .error (.Precommit idx e)
                | .ok .Skip => .ok st1
                | .ok .Run => .ok accepted
              else
                match st1.verifier.process_known_authority_vote idx signed with
                | .error e => .error (.Precommit idx e)
                | .ok .Skip => .ok st1
                | .ok .Run => .ok accepted
            else
              .ok accepted

/-- Modelled from the spec (section 4.1, step 1): the loop over the
precommits in the order they appear in the justification, threading the
engine working state; any error aborts the whole verification
immediately. -/
def runPrecommits (sigOk : AuthorityId → Message → Nat → Bool)
    (context : JustificationVerificationContext) (round : Nat)
    (tHash : Hash) (tNum : Number) (votes_ancestries : List Header) :
    List SignedPrecommit → Nat → LoopState → Except Error LoopState
  | [], _, st => .ok st
  | signed :: rest, idx, st =>
      match processPrecommit sigOk context round tHash tNum votes_ancestries
          signed idx st with
      | .error e => .error e
      | .ok st1 =>
          runPrecommits sigOk context round tHash tNum votes_ancestries rest
            (idx + 1) st1

/-- Modelled from the spec (section 4.1, step 3): compute the ancestry
headers never marked visited and invoke the redundant-votes-ancestries hook
on that set when it is non-empty (the strict hook then always fails); when
every supplied ancestry header was visited this step succeeds. -/
def finalRedundancyCheck (v : StrictJustificationVerifier)
    (redundant : List Hash) : Except Error Unit :=
  if redundant = [] then .ok ()
  else
    match v.process_redundant_votes_ancestries redundant with
    | .error e => .error e
    | .ok _ => .ok ()

/-- Modelled from the spec (section 4.1, steps 2 and 3): after the loop,
check the accumulated weight against the quorum threshold
(`InsufficientSignedWeight` on failure — part of the engine contract, not
overridable by the policy), then perform the final redundancy check over
the ancestry headers never marked visited. -/
def finishVerification (context : JustificationVerificationContext)
    (votes_ancestries : List Header) (st : LoopState) : Except Error Unit :=
  if st.cumulativeWeight < context.threshold then
    .error .InsufficientSignedWeight
  else
    finalRedundancyCheck st.verifier
      ((votes_ancestries.map Header.hash).filter (fun x => x ∉ st.visited))

/-- Modelled from the spec (section 4.1; the generic engine's driver is not
under the available sources): process every precommit, then perform the
final weight and redundancy checks. -/
def StrictJustificationVerifier.verify_justification
    (sigOk : AuthorityId → Message → Nat → Bool)
    (v : StrictJustificationVerifier)
    (finalized_target : Hash × Number)
    (context : JustificationVerificationContext)
    (justification : GrandpaJustification) : Except Error Unit :=
  match runPrecommits sigOk context justification.round finalized_target.1
      finalized_target.2 justification.votes_ancestries justification.precommits 0
      { verifier := v, accepted := [], visited := [], cumulativeWeight := 0 } with
  | .error e => .error e
  | .ok st => finishVerification context justification.votes_ancestries st

/-- Source `strict.rs` lines 94-101: verify a justification with a freshly
constructed strict verifier (`votes: BTreeSet::new()`), discarded on
return.  The engine it delegates to is modelled from the spec. -/
def verify_justification (sigOk : AuthorityId → Message → Nat → Bool)
    (finalized_target : Hash × Number)
    (context : JustificationVerificationContext)
    (justification : GrandpaJustification) : Except Error Unit :=
  StrictJustificationVerifier.verify_justification sigOk ⟨[]⟩ finalized_target
    context justification

/-! Derived notions used to state the properties. -/

/-- A precommit that passes all per-vote checks: well-signed, from a known
authority, and connected to the claimed finalized target through the
supplied ancestry headers. -/
def goodVote (sigOk : AuthorityId → Message → Nat → Bool)
    (context : JustificationVerificationContext) (round : Nat)
    (tHash : Hash) (tNum : Number) (anc : List Header)
    (p : SignedPrecommit) : Bool :=
  sigOk p.id (round, context.set_id, p.target_hash, p.target_number) p.signature &&
    (lookupWeight context.authorities p.id).isSome &&
    (ancestryRoute anc tHash tNum p.target_hash p.target_number).isSome

/-- The voting weight of a precommit's authority in the context (0 when the
authority is unknown). -/
def voteWeight (context : JustificationVerificationContext)
    (p : SignedPrecommit) : Nat :=
  (lookupWeight context.authorities p.id).getD 0

/-- The ancestry-header hashes touched by a precommit's (successful) walk
back to the claimed finalized target. -/
def routeOf (anc : List Header) (tHash : Hash) (tNum : Number)
    (p : SignedPrecommit) : List Hash :=
  (ancestryRoute anc tHash tNum p.target_hash p.target_number).getD []

/-- The cumulative voting weight of a list of precommits. -/
def sumWeights (context : JustificationVerificationContext)
    (l : List SignedPrecommit) : Nat :=
  (l.map (voteWeight context)).sum

/-! Loop lemmas. -/

lemma processPrecommit_good (sigOk : AuthorityId → Message → Nat → Bool)
    (context : JustificationVerificationContext) (round : Nat)
    (tHash : Hash) (tNum : Number) (anc : List Header)
    (signed : SignedPrecommit) (idx : Nat) (st : LoopState)
    (hg : goodVote sigOk context round tHash tNum anc signed = true)
    (hfresh : signed.id ∉ st.verifier.votes) :
    processPrecommit sigOk context round tHash tNum anc signed idx st =
      .ok { verifier := ⟨signed.id :: st.verifier.votes⟩,
            accepted := st.accepted ++ [signed],
            visited := st.visited ++ routeOf anc tHash tNum signed,
            cumulativeWeight := st.cumulativeWeight + voteWeight context signed } := by
  simp only [goodVote, Bool.and_eq_true, Option.isSome_iff_exists] at hg
  obtain ⟨⟨hsig, w, hw⟩, r, hr⟩ := hg
  simp [processPrecommit, hsig, hw, hr, hfresh, voteWeight, routeOf,
    StrictJustificationVerifier.process_valid_vote, List.insert_of_not_mem hfresh]

lemma runPrecommits_nil (sigOk : AuthorityId → Message → Nat → Bool)
    (context : JustificationVerificationContext) (round : Nat)
    (tHash : Hash) (tNum : Number) (anc : List Header)
    (idx : Nat) (st : LoopState) :
    runPrecommits sigOk context round tHash tNum anc [] idx st = .ok st := rfl

lemma runPrecommits_cons_error (sigOk : AuthorityId → Message → Nat → Bool)
    (context : JustificationVerificationContext) (round : Nat)
    (tHash : Hash) (tNum : Number) (anc : List Header)
    (signed : SignedPrecommit) (rest : List SignedPrecommit)
    (idx : Nat) (st : LoopState) (e : Error)
    (hp : processPrecommit sigOk context round tHash tNum anc signed idx st = .error e) :
    runPrecommits sigOk context round tHash tNum anc (signed :: rest) idx st = .error e := by
  show (match processPrecommit sigOk context round tHash tNum anc signed idx st with
        | .error e => (.error e : Except Error LoopState)
        | .ok st1 => runPrecommits sigOk context round tHash tNum anc rest (idx + 1) st1) =
      .error e
  rw [hp]

lemma runPrecommits_cons_ok (sigOk : AuthorityId → Message → Nat → Bool)
    (context : JustificationVerificationContext) (round : Nat)
    (tHash : Hash) (tNum : Number) (anc : List Header)
    (signed : SignedPrecommit) (rest : List SignedPrecommit)
    (idx : Nat) (st st1 : LoopState)
    (hp : processPrecommit sigOk context round tHash tNum anc signed idx st = .ok st1) :
    runPrecommits sigOk context round tHash tNum anc (signed :: rest) idx st =
      runPrecommits sigOk context round tHash tNum anc rest (idx + 1) st1 := by
  show (match processPrecommit sigOk context round tHash tNum anc signed idx st with
        | .error e => (.error e : Except Error LoopState)
        | .ok st1 => runPrecommits sigOk context round tHash tNum anc rest (idx + 1) st1) =
      runPrecommits sigOk context round tHash tNum anc rest (idx + 1) st1
  rw [hp]

lemma runPrecommits_append (sigOk : AuthorityId → Message → Nat → Bool)
    (context : JustificationVerificationContext) (round : Nat)
    (tHash : Hash) (tNum : Number) (anc : List Header)
    (l1 l2 : List SignedPrecommit) (idx : Nat) (st st1 : LoopState)
    (h : runPrecommits sigOk context round tHash tNum anc l1 idx st = .ok st1) :
    runPrecommits sigOk context round tHash tNum anc (l1 ++ l2) idx st =
      runPrecommits sigOk context round tHash tNum anc l2 (idx + l1.length) st1 := by
  induction l1 generalizing idx st with
  | nil =>
      rw [runPrecommits_nil, Except.ok.injEq] at h
      subst h
      simp
  | cons p rest ih =>
      cases hp : processPrecommit sigOk context round tHash tNum anc p idx st with
      | error e =>
          rw [runPrecommits_cons_error sigOk context round tHash tNum anc p rest idx st e hp] at h
          exact absurd h (by simp)
      | ok st2 =>
          rw [runPrecommits_cons_ok sigOk context round tHash tNum anc p rest idx st st2 hp] at h
          rw [List.cons_append,
            runPrecommits_cons_ok sigOk context round tHash tNum anc p (rest ++ l2) idx st st2 hp,
            ih (idx + 1) st2 h]
          simp [Nat.add_assoc, Nat.add_comm 1 rest.length]

lemma runPrecommits_all_good (sigOk : AuthorityId → Message → Nat → Bool)
    (context : JustificationVerificationContext) (round : Nat)
    (tHash : Hash) (tNum : Number) (anc : List Header)
    (l : List SignedPrecommit) (idx : Nat) (st : LoopState)
    (hgood : ∀ p ∈ l, goodVote sigOk context round tHash tNum anc p = true)
    (hnodup : (l.map SignedPrecommit.id).Nodup)
    (hfresh : ∀ p ∈ l, p.id ∉ st.verifier.votes) :
    runPrecommits sigOk context round tHash tNum anc l idx st =
      .ok { verifier := ⟨(l.map SignedPrecommit.id).reverse ++ st.verifier.votes⟩,
            accepted := st.accepted ++ l,
            visited := st.visited ++ (l.map (routeOf anc tHash tNum)).flatten,
            cumulativeWeight := st.cumulativeWeight + sumWeights context l } := by
  induction l generalizing idx st with
  | nil => simp [runPrecommits_nil, sumWeights]
  | cons p rest ih =>
      simp only [List.map_cons, List.nodup_cons] at hnodup
      obtain ⟨hpid, hnodup'⟩ := hnodup
      rw [runPrecommits_cons_ok sigOk context round tHash tNum anc p rest idx st _
        (processPrecommit_good sigOk context round tHash tNum anc p idx st
          (hgood p (List.mem_cons_self p rest)) (hfresh p (List.mem_cons_self p rest)))]
      rw [ih (idx + 1) _
        (fun q hq => hgood q (List.mem_cons_of_mem p hq)) hnodup'
        (fun q hq hqv => by
          rcases List.mem_cons.mp hqv with hqp | hqv'
          · exact hpid (hqp ▸ List.mem_map_of_mem SignedPrecommit.id hq)
          · exact hfresh q (List.mem_cons_of_mem p hq) hqv')]
      simp [sumWeights, List.append_assoc, Nat.add_assoc]

lemma processPrecommit_dup (sigOk : AuthorityId → Message → Nat → Bool)
    (context : JustificationVerificationContext) (round : Nat)
    (tHash : Hash) (tNum : Number) (anc : List Header)
    (signed : SignedPrecommit) (idx : Nat) (st : LoopState)
    (hg : goodVote sigOk context round tHash tNum anc signed = true)
    (hmem : signed.id ∈ st.verifier.votes) :
    processPrecommit sigOk context round tHash tNum anc signed idx st =
      .error (.Precommit idx
        (if signed ∈ st.accepted then PrecommitError.RedundantAuthorityVote
         else PrecommitError.DuplicateAuthorityVote)) := by
  simp only [goodVote, Bool.and_eq_true, Option.isSome_iff_exists] at hg
  obtain ⟨⟨hsig, w, hw⟩, r, hr⟩ := hg
  by_cases hacc : signed ∈ st.accepted <;>
    simp [processPrecommit, hsig, hw, hr, hmem, hacc,
      StrictJustificationVerifier.process_redundant_vote,
      StrictJustificationVerifier.process_known_authority_vote]

lemma strict_verify_run_ok (sigOk : AuthorityId → Message → Nat → Bool)
    (v : StrictJustificationVerifier) (tgt : Hash × Number)
    (context : JustificationVerificationContext) (J : GrandpaJustification)
    (st : LoopState)
    (h : runPrecommits sigOk context J.round tgt.1 tgt.2 J.votes_ancestries
      J.precommits 0 { verifier := v, accepted := [], visited := [], cumulativeWeight := 0 } =
      .ok st) :
    StrictJustificationVerifier.verify_justification sigOk v tgt context J =
      finishVerification context J.votes_ancestries st := by
  show (match runPrecommits sigOk context J.round tgt.1 tgt.2 J.votes_ancestries
      J.precommits 0 { verifier := v, accepted := [], visited := [], cumulativeWeight := 0 } with
    | .error e => (.error e : Except Error Unit)
    | .ok st => finishVerification context J.votes_ancestries st) =
    finishVerification context J.votes_ancestries st
  rw [h]

lemma strict_verify_run_error (sigOk : AuthorityId → Message → Nat → Bool)
    (v : StrictJustificationVerifier) (tgt : Hash × Number)
    (context : JustificationVerificationContext) (J : GrandpaJustification)
    (e : Error)
    (h : runPrecommits sigOk context J.round tgt.1 tgt.2 J.votes_ancestries
      J.precommits 0 { verifier := v, accepted := [], visited := [], cumulativeWeight := 0 } =
      .error e) :
    StrictJustificationVerifier.verify_justification sigOk v tgt context J = .error e := by
  show (match runPrecommits sigOk context J.round tgt.1 tgt.2 J.votes_ancestries
      J.precommits 0 { verifier := v, accepted := [], visited := [], cumulativeWeight := 0 } with
    | .error e => (.error e : Except Error Unit)
    | .ok st => finishVerification context J.votes_ancestries st) =
    .error e
  rw [h]

/-! Concrete inputs used by the witnesses: four authorities of weight 1,
threshold 3, votes naming the finalized target (10, 5) directly. -/

/-- A signature capability that accepts everything. -/
def exSigOk : AuthorityId → Message → Nat → Bool := fun _ _ _ => true

/-- A signature capability that rejects everything (a corrupted signature). -/
def exSigBad : AuthorityId → Message → Nat → Bool := fun _ _ _ => false

/-- Four authorities of weight 1 each, threshold 3, set id 7. -/
def exContext : JustificationVerificationContext :=
  { authorities := [(1, 1), (2, 1), (3, 1), (4, 1)], threshold := 3, set_id := 7 }

/-- One precommit of authority `a` naming the target (10, 5) directly. -/
def exVote (a : AuthorityId) : SignedPrecommit :=
  { target_hash := 10, target_number := 5, id := a, signature := 0 }

/-- Three distinct valid votes, no ancestry headers. -/
def exJust : GrandpaJustification :=
  { round := 1, commit_target_hash := 10, commit_target_number := 5,
    precommits := [exVote 1, exVote 2, exVote 3], votes_ancestries := [] }

/-- Only two distinct valid votes (threshold is 3). -/
def exJustTwo : GrandpaJustification :=
  { round := 1, commit_target_hash := 10, commit_target_number := 5,
    precommits := [exVote 1, exVote 2], votes_ancestries := [] }

/-- Authority 1's identical vote repeated verbatim. -/
def exJustRep : GrandpaJustification :=
  { round := 1, commit_target_hash := 10, commit_target_number := 5,
    precommits := [exVote 1, exVote 1, exVote 2, exVote 3], votes_ancestries := [] }

/-! The claims. -/

/-- C1: For every justification in which every precommit is well-signed,
comes from a distinct known authority, chains via the supplied ancestry
headers to the claimed finalized target, every supplied ancestry header is
used by some accepted vote's walk, and the accepted cumulative weight
reaches the quorum threshold, `verify_justification` returns success
(`Ok(())`). -/
theorem C1_valid_justification_verifies
    (sigOk : AuthorityId → Message → Nat → Bool) (tgt : Hash × Number)
    (context : JustificationVerificationContext) (J : GrandpaJustification)
    (hgood : ∀ p ∈ J.precommits,
      goodVote sigOk context J.round tgt.1 tgt.2 J.votes_ancestries p = true)
    (hnodup : (J.precommits.map SignedPrecommit.id).Nodup)
    (hcover : ∀ h ∈ J.votes_ancestries, ∃ p ∈ J.precommits,
      h.hash ∈ routeOf J.votes_ancestries tgt.1 tgt.2 p)
    (hw : context.threshold ≤ sumWeights context J.precommits) :
    verify_justification sigOk tgt context J = .ok () := by
  unfold verify_justification
  rw [strict_verify_run_ok sigOk ⟨[]⟩ tgt context J _
    (runPrecommits_all_good sigOk context J.round tgt.1 tgt.2 J.votes_ancestries
      J.precommits 0
      { verifier := ⟨[]⟩, accepted := [], visited := [], cumulativeWeight := 0 }
      hgood hnodup (by intro p _ hp; simp at hp))]
  unfold finishVerification
  rw [if_neg (by
    simp only [Nat.not_lt, Nat.zero_add]
    exact hw)]
  have hvis : ∀ h ∈ J.votes_ancestries,
      h.hash ∈ (J.precommits.map (routeOf J.votes_ancestries tgt.1 tgt.2)).flatten := by
    intro h hh
    obtain ⟨p, hp, hmem⟩ := hcover h hh
    exact List.mem_flatten.mpr ⟨_, List.mem_map_of_mem _ hp, hmem⟩
  have hred : (J.votes_ancestries.map Header.hash).filter
      (fun x => x ∉ ([] : List Hash) ++
        (J.precommits.map (routeOf J.votes_ancestries tgt.1 tgt.2)).flatten) = [] := by
    rw [List.filter_eq_nil_iff]
    intro x hx
    obtain ⟨h, hh, rfl⟩ := List.mem_map.mp hx
    simp [hvis h hh]
  rw [hred]
  simp [finalRedundancyCheck]

/-- Witness for C1: spec scenario (a) — four authorities of weight 1,
threshold 3, three valid distinct votes all naming the target directly, no
extra ancestry headers. -/
theorem C1_valid_justification_verifies_witness :
    verify_justification exSigOk (10, 5) exContext exJust = .ok () :=
  C1_valid_justification_verifies exSigOk (10, 5) exContext exJust
    (by decide) (by decide) (by decide) (by decide)

/-- C2: the final redundancy step — the strict redundant-votes-ancestries
hook guarded by the engine's non-emptiness check — fails with
`RedundantVotesAncestries` exactly when the set of never-visited ancestry
headers is non-empty, and produces no error when that set is empty. -/
theorem C2_redundant_ancestries_iff (v : StrictJustificationVerifier)
    (redundant : List Hash) :
    (finalRedundancyCheck v redundant = .error .RedundantVotesAncestries ↔
      redundant ≠ []) ∧
    (redundant = [] → finalRedundancyCheck v redundant = .ok ()) := by
  refine ⟨⟨fun h hnil => ?_, fun hne => ?_⟩, fun hnil => ?_⟩
  · rw [hnil] at h
    simp [finalRedundancyCheck] at h
  · simp [finalRedundancyCheck, hne,
      StrictJustificationVerifier.process_redundant_votes_ancestries]
  · simp [finalRedundancyCheck, hnil]

/-- C3 counterexample: the claim attaches a definite error to every
justification in which an authority's identical vote is repeated verbatim,
but when the signatures do not verify the strict policy aborts at the first
vote with `InvalidAuthoritySignature`: the repeated vote is never reached,
so verification does not fail with `RedundantAuthorityVote`. -/
theorem C3_same_authority_twice_counterexample :
    exJustRep.precommits = [exVote 1, exVote 1, exVote 2, exVote 3] ∧
    verify_justification exSigBad (10, 5) exContext exJustRep =
      .error (.Precommit 0 .InvalidAuthoritySignature) ∧
    (∀ idx, verify_justification exSigBad (10, 5) exContext exJustRep ≠
      .error (.Precommit idx .RedundantAuthorityVote)) := by
  refine ⟨rfl, rfl, fun idx h => ?_⟩
  rw [show verify_justification exSigBad (10, 5) exContext exJustRep =
    .error (.Precommit 0 .InvalidAuthoritySignature) from rfl] at h
  simp at h

/-- C3 as amended: in a justification whose precommits up to and including
the first repeated-authority vote are all well-signed, from known
authorities, and chain to the target, the vote at the first repetition
fails: with `RedundantAuthorityVote` when it is the identical accepted vote
repeated verbatim, and with `DuplicateAuthorityVote` otherwise (the
known-authority hook errors whenever the authority is already in the
accepted set). -/
theorem C3_same_authority_twice_rejected
    (sigOk : AuthorityId → Message → Nat → Bool) (tgt : Hash × Number)
    (context : JustificationVerificationContext) (J : GrandpaJustification)
    (l1 l2 : List SignedPrecommit) (p : SignedPrecommit)
    (hJ : J.precommits = l1 ++ p :: l2)
    (hgood : ∀ q ∈ l1, goodVote sigOk context J.round tgt.1 tgt.2 J.votes_ancestries q = true)
    (hgoodp : goodVote sigOk context J.round tgt.1 tgt.2 J.votes_ancestries p = true)
    (hnodup : (l1.map SignedPrecommit.id).Nodup)
    (hdup : p.id ∈ l1.map SignedPrecommit.id) :
    verify_justification sigOk tgt context J =
      .error (.Precommit l1.length
        (if p ∈ l1 then PrecommitError.RedundantAuthorityVote
         else PrecommitError.DuplicateAuthorityVote)) := by
  have h1 := runPrecommits_all_good sigOk context J.round tgt.1 tgt.2 J.votes_ancestries
    l1 0 { verifier := ⟨[]⟩, accepted := [], visited := [], cumulativeWeight := 0 }
    hgood hnodup (fun q _ hq => by simp at hq)
  have h1' : runPrecommits sigOk context J.round tgt.1 tgt.2 J.votes_ancestries l1 0
      { verifier := ⟨[]⟩, accepted := [], visited := [], cumulativeWeight := 0 } =
      .ok { verifier := ⟨(l1.map SignedPrecommit.id).reverse⟩, accepted := l1,
            visited := (l1.map (routeOf J.votes_ancestries tgt.1 tgt.2)).flatten,
            cumulativeWeight := sumWeights context l1 } := by
    rw [h1]
    simp
  unfold verify_justification
  apply strict_verify_run_error
  rw [hJ, runPrecommits_append sigOk context J.round tgt.1 tgt.2 J.votes_ancestries
    l1 (p :: l2) 0 _ _ h1']
  apply runPrecommits_cons_error
  rw [processPrecommit_dup sigOk context J.round tgt.1 tgt.2 J.votes_ancestries p
    (0 + l1.length)
    { verifier := ⟨(l1.map SignedPrecommit.id).reverse⟩, accepted := l1,
      visited := (l1.map (routeOf J.votes_ancestries tgt.1 tgt.2)).flatten,
      cumulativeWeight := sumWeights context l1 }
    hgoodp (by simpa [List.mem_reverse] using hdup)]
  simp

/-- Witness for the amended C3: authority 1's identical, otherwise valid
vote repeated verbatim fails at index 1 with `RedundantAuthorityVote`. -/
theorem C3_same_authority_twice_rejected_witness :
    verify_justification exSigOk (10, 5) exContext exJustRep =
      .error (.Precommit 1 .RedundantAuthorityVote) := by
  have h := C3_same_authority_twice_rejected exSigOk (10, 5) exContext exJustRep
    [exVote 1] [exVote 2, exVote 3] (exVote 1) rfl
    (by decide) (by decide) (by decide) (by decide)
  simpa using h

/-- C4: after all precommits are processed, a cumulative accepted weight
below the context's quorum threshold fails with `InsufficientSignedWeight`;
the check sits in the engine, before the policy's final hook, and no strict
hook can override it. -/
theorem C4_insufficient_weight_rejected
    (sigOk : AuthorityId → Message → Nat → Bool) (tgt : Hash × Number)
    (context : JustificationVerificationContext) (J : GrandpaJustification)
    (st : LoopState)
    (hrun : runPrecommits sigOk context J.round tgt.1 tgt.2 J.votes_ancestries
      J.precommits 0
      { verifier := ⟨[]⟩, accepted := [], visited := [], cumulativeWeight := 0 } =
      .ok st)
    (hlt : st.cumulativeWeight < context.threshold) :
    verify_justification sigOk tgt context J = .error .InsufficientSignedWeight := by
  unfold verify_justification
  rw [strict_verify_run_ok sigOk ⟨[]⟩ tgt context J st hrun]
  unfold finishVerification
  rw [if_pos hlt]

/-- Witness for C4: spec scenario (e) — only two valid votes of weight 1
against threshold 3. -/
theorem C4_insufficient_weight_rejected_witness :
    verify_justification exSigOk (10, 5) exContext exJustTwo =
      .error .InsufficientSignedWeight :=
  C4_insufficient_weight_rejected exSigOk (10, 5) exContext exJustTwo
    { verifier := ⟨[2, 1]⟩, accepted := [exVote 1, exVote 2], visited := [],
      cumulativeWeight := 2 }
    (by rfl) (by decide)

/-- The sum of the context weights of a list of authority ids (an unknown
id contributes 0). -/
def votesWeight (context : JustificationVerificationContext)
    (votes : List AuthorityId) : Nat :=
  (votes.map (fun a => (lookupWeight context.authorities a).getD 0)).sum

lemma processPrecommit_invariant (sigOk : AuthorityId → Message → Nat → Bool)
    (context : JustificationVerificationContext) (round : Nat)
    (tHash : Hash) (tNum : Number) (anc : List Header)
    (signed : SignedPrecommit) (idx : Nat) (st st' : LoopState)
    (h : processPrecommit sigOk context round tHash tNum anc signed idx st = .ok st')
    (hnodup : st.verifier.votes.Nodup)
    (hweight : st.cumulativeWeight = votesWeight context st.verifier.votes) :
    st'.verifier.votes.Nodup ∧
    st'.cumulativeWeight = votesWeight context st'.verifier.votes ∧
    ∀ a ∈ st.verifier.votes, a ∈ st'.verifier.votes := by
  by_cases hsig : sigOk signed.id (round, context.set_id, signed.target_hash,
      signed.target_number) signed.signature = false
  · simp [processPrecommit, hsig,
      StrictJustificationVerifier.process_invalid_signature_vote] at h
  · cases hlk : lookupWeight context.authorities signed.id with
    | none =>
        simp [processPrecommit, hsig, hlk,
          StrictJustificationVerifier.process_unknown_authority_vote] at h
    | some w =>
        cases hrt : ancestryRoute anc tHash tNum signed.target_hash signed.target_number with
        | none =>
            simp [processPrecommit, hsig, hlk, hrt,
              StrictJustificationVerifier.process_unrelated_ancestry_vote] at h
        | some route =>
            by_cases hmem : signed.id ∈ st.verifier.votes
            · by_cases hacc : signed ∈ st.accepted
              · simp [processPrecommit, hsig, hlk, hrt, hmem, hacc,
                  StrictJustificationVerifier.process_redundant_vote] at h
              · simp [processPrecommit, hsig, hlk, hrt, hmem, hacc,
                  StrictJustificationVerifier.process_known_authority_vote] at h
            · have hsig' : sigOk signed.id (round, context.set_id, signed.target_hash,
                  signed.target_number) signed.signature = true := by
                revert hsig
                cases sigOk signed.id (round, context.set_id, signed.target_hash,
                  signed.target_number) signed.signature <;> simp
              rw [processPrecommit_good sigOk context round tHash tNum anc signed idx st
                (by simp [goodVote, hlk, hrt, hsig']) hmem,
                Except.ok.injEq] at h
              subst h
              refine ⟨List.nodup_cons.mpr ⟨hmem, hnodup⟩, ?_,
                fun a ha => List.mem_cons_of_mem _ ha⟩
              simp [votesWeight, hweight, voteWeight, hlk, Nat.add_comm]

/-- C5: throughout a verification run the accepted-authority set contains
at most one entry per `AuthorityId` and only grows (`process_valid_vote` is
the only mutation, nothing removes), and the accumulated signed weight
always equals the sum of the context weights of exactly the authorities in
that set. -/
theorem C5_accepted_set_invariant (sigOk : AuthorityId → Message → Nat → Bool)
    (context : JustificationVerificationContext) (round : Nat)
    (tHash : Hash) (tNum : Number) (anc : List Header) :
    ∀ (l : List SignedPrecommit) (idx : Nat) (st st' : LoopState),
      st.verifier.votes.Nodup →
      st.cumulativeWeight = votesWeight context st.verifier.votes →
      runPrecommits sigOk context round tHash tNum anc l idx st = .ok st' →
      st'.verifier.votes.Nodup ∧
      st'.cumulativeWeight = votesWeight context st'.verifier.votes ∧
      ∀ a ∈ st.verifier.votes, a ∈ st'.verifier.votes := by
  intro l
  induction l with
  | nil =>
      intro idx st st' hnodup hweight hrun
      rw [runPrecommits_nil, Except.ok.injEq] at hrun
      subst hrun
      exact ⟨hnodup, hweight, fun a ha => ha⟩
  | cons p rest ih =>
      intro idx st st' hnodup hweight hrun
      cases hp : processPrecommit sigOk context round tHash tNum anc p idx st with
      | error e =>
          rw [runPrecommits_cons_error sigOk context round tHash tNum anc p rest idx st e hp]
            at hrun
          exact absurd hrun (by simp)
      | ok st1 =>
          rw [runPrecommits_cons_ok sigOk context round tHash tNum anc p rest idx st st1 hp]
            at hrun
          obtain ⟨h1, h2, h3⟩ := processPrecommit_invariant sigOk context round tHash tNum
            anc p idx st st1 hp hnodup hweight
          obtain ⟨g1, g2, g3⟩ := ih (idx + 1) st1 st' h1 h2 hrun
          exact ⟨g1, g2, fun a ha => g3 a (h3 a ha)⟩

/-- The fresh engine state the strict `verify_justification` starts from. -/
def exStInit : LoopState :=
  { verifier := ⟨[]⟩, accepted := [], visited := [], cumulativeWeight := 0 }

/-- The engine state after the three-vote scenario's run. -/
def exStFinal : LoopState :=
  { verifier := ⟨[3, 2, 1]⟩, accepted := [exVote 1, exVote 2, exVote 3],
    visited := [], cumulativeWeight := 3 }

/-- Witness for C5: the three-vote scenario, run from the fresh empty
state, ends with a duplicate-free set and weight 3 = 1 + 1 + 1. -/
theorem C5_accepted_set_invariant_witness :
    exStFinal.verifier.votes.Nodup ∧
    exStFinal.cumulativeWeight = votesWeight exContext exStFinal.verifier.votes ∧
    ∀ a ∈ exStInit.verifier.votes, a ∈ exStFinal.verifier.votes :=
  C5_accepted_set_invariant exSigOk exContext 1 10 5 []
    [exVote 1, exVote 2, exVote 3] 0 exStInit exStFinal
    (by decide) (by rfl) (by rfl)

/-- C6: the strict policy's invalid-signature hook never returns a continue
signal — for every precommit index it returns `InvalidAuthoritySignature` —
and a precommit whose signature does not verify aborts the whole loop
immediately with that error, regardless of the remaining votes. -/
theorem C6_invalid_signature_always_aborts
    (v : StrictJustificationVerifier) (idx : Nat)
    (sigOk : AuthorityId → Message → Nat → Bool)
    (context : JustificationVerificationContext) (round : Nat)
    (tHash : Hash) (tNum : Number) (anc : List Header)
    (signed : SignedPrecommit) (rest : List SignedPrecommit) (st : LoopState)
    (hsig : sigOk signed.id (round, context.set_id, signed.target_hash, signed.target_number)
      signed.signature = false) :
    v.process_invalid_signature_vote idx = .error .InvalidAuthoritySignature ∧
    runPrecommits sigOk context round tHash tNum anc (signed :: rest) idx st =
      .error (.Precommit idx .InvalidAuthoritySignature) := by
  refine ⟨rfl, runPrecommits_cons_error sigOk context round tHash tNum anc signed rest idx st _ ?_⟩
  simp [processPrecommit, hsig, StrictJustificationVerifier.process_invalid_signature_vote]

/-- Witness for C6: a corrupted signature on the first of three otherwise
valid votes aborts at index 0 (spec scenario (b)). -/
theorem C6_invalid_signature_always_aborts_witness :
    (⟨[]⟩ : StrictJustificationVerifier).process_invalid_signature_vote 0 =
      .error .InvalidAuthoritySignature ∧
    runPrecommits exSigBad exContext 1 10 5 [] [exVote 1, exVote 2, exVote 3] 0
      { verifier := ⟨[]⟩, accepted := [], visited := [], cumulativeWeight := 0 } =
      .error (.Precommit 0 .InvalidAuthoritySignature) :=
  C6_invalid_signature_always_aborts ⟨[]⟩ 0 exSigBad exContext 1 10 5 []
    (exVote 1) [exVote 2, exVote 3]
    { verifier := ⟨[]⟩, accepted := [], visited := [], cumulativeWeight := 0 }
    (by decide)

/-- C7: `verify_justification` is deterministic and stateless across calls:
two invocations on the same target, context and justification denote the
same result, and each call starts from a freshly constructed strict
verifier with an empty accepted-vote set (`votes: BTreeSet::new()`),
discarded on return — in this embedding the function takes no state beyond
its arguments, faithfully to the borrowed, never-mutated inputs of the
source. -/
theorem C7_deterministic_stateless
    (sigOk : AuthorityId → Message → Nat → Bool) (tgt : Hash × Number)
    (context : JustificationVerificationContext) (J : GrandpaJustification) :
    verify_justification sigOk tgt context J = verify_justification sigOk tgt context J ∧
    verify_justification sigOk tgt context J =
      StrictJustificationVerifier.verify_justification sigOk ⟨[]⟩ tgt context J :=
  ⟨rfl, rfl⟩

/-- C8: the strict known-authority hook returns the continue signal
(`IterationFlow::Run`) whenever the vote's authority is not yet in the
accepted set, and fails with `DuplicateAuthorityVote` exactly when it is
already there — a first vote from a known authority is never rejected by
this hook. -/
theorem C8_known_authority_first_vote_runs
    (v : StrictJustificationVerifier) (idx : Nat) (signed : SignedPrecommit) :
    (signed.id ∉ v.votes → v.process_known_authority_vote idx signed = .ok .Run) ∧
    (v.process_known_authority_vote idx signed = .error .DuplicateAuthorityVote ↔
      signed.id ∈ v.votes) := by
  refine ⟨fun h => ?_, ⟨fun h => ?_, fun hmem => ?_⟩⟩
  · simp [StrictJustificationVerifier.process_known_authority_vote, h]
  · by_contra hmem
    simp [StrictJustificationVerifier.process_known_authority_vote, hmem] at h
  · simp [StrictJustificationVerifier.process_known_authority_vote, hmem]

/-- C9: `process_valid_vote` is idempotent on the accepted-vote set: a
second insertion of the same signed precommit leaves the state as after the
first, and inserting a precommit whose authority is already present leaves
the state unchanged. -/
theorem C9_process_valid_vote_idempotent
    (v : StrictJustificationVerifier) (signed : SignedPrecommit) :
    (v.process_valid_vote signed).process_valid_vote signed = v.process_valid_vote signed ∧
    (signed.id ∈ v.votes → v.process_valid_vote signed = v) := by
  constructor
  · simp [StrictJustificationVerifier.process_valid_vote,
      List.insert_of_mem (List.mem_insert_self signed.id v.votes)]
  · intro h
    simp [StrictJustificationVerifier.process_valid_vote, List.insert_of_mem h]

end GrandpaStrict

namespace PalletMultisigWeights

/-!
Embedding of `pallet_multisig.rs` (bridge-hub-polkadot weight table).
`Weight` components are `u64` values, modelled as `Nat` together with
saturating arithmetic clamped at `2^64 - 1`; `frame_support`'s
`Weight::from_parts`, `Weight::saturating_add`, `Weight::saturating_mul`
and `RuntimeDbWeight::reads`/`writes` are reproduced from their documented
semantics (componentwise `u64::saturating_add` / `u64::saturating_mul`).
-/

/-- The largest `u64` value. -/
def u64Max : Nat := 2 ^ 64 - 1

/-- Rust `u64::saturating_add`. -/
def satAdd64 (a b : Nat) : Nat := min (a + b) u64Max

/-- Rust `u64::saturating_mul`. -/
def satMul64 (a b : Nat) : Nat := min (a * b) u64Max

/-- Rust `frame_support::weights::Weight`: reference-time and proof-size
components, both `u64`. -/
structure Weight where
  ref_time : Nat
  proof_size : Nat
deriving DecidableEq, Repr

/-- Rust `Weight::from_parts(ref_time, proof_size)`. -/
def Weight.from_parts (ref_time proof_size : Nat) : Weight :=
  ⟨ref_time, proof_size⟩

/-- Rust `Weight::saturating_add`: componentwise saturating addition. -/
def Weight.saturating_add (w v : Weight) : Weight :=
  ⟨satAdd64 w.ref_time v.ref_time, satAdd64 w.proof_size v.proof_size⟩

/-- Rust `Weight::saturating_mul(scalar)`: componentwise saturating
multiplication by a `u64` scalar. -/
def Weight.saturating_mul (w : Weight) (k : Nat) : Weight :=
  ⟨satMul64 w.ref_time k, satMul64 w.proof_size k⟩

/-- Rust `frame_support::weights::RuntimeDbWeight` (`T::DbWeight::get()`): the
per-read and per-write database weights, both `u64`. -/
structure RuntimeDbWeight where
  read : Nat
  write : Nat
deriving DecidableEq, Repr

/-- Rust `RuntimeDbWeight::reads(r)`. -/
def RuntimeDbWeight.reads (db : RuntimeDbWeight) (r : Nat) : Weight :=
  Weight.from_parts (satMul64 db.read r) 0

/-- Rust `RuntimeDbWeight::writes(w)`. -/
def RuntimeDbWeight.writes (db : RuntimeDbWeight) (w : Nat) : Weight :=
  Weight.from_parts (satMul64 db.write w) 0

/-- Source `pallet_multisig.rs` lines 65-78: the `as_multi_create` weight formula
`Weight::from_parts(31_553_347, 0) + (0, 6811) + 62_042·s + 1_178·z +
one db read + one db write`, all with saturating arithmetic.  The runtime's
`T::DbWeight` is passed explicitly. -/
def as_multi_create (db : RuntimeDbWeight) (s z : Nat) : Weight :=
  (((((Weight.from_parts 31553347 0).saturating_add
      (Weight.from_parts 0 6811)).saturating_add
      ((Weight.from_parts 62042 0).saturating_mul s)).saturating_add
      ((Weight.from_parts 1178 0).saturating_mul z)).saturating_add
      (db.reads 1)).saturating_add
      (db.writes 1)

lemma satAdd64_mono {a a' b b' : Nat} (ha : a ≤ a') (hb : b ≤ b') :
    satAdd64 a b ≤ satAdd64 a' b' :=
  min_le_min (Nat.add_le_add ha hb) (le_refl u64Max)

lemma satMul64_mono {a a' b b' : Nat} (ha : a ≤ a') (hb : b ≤ b') :
    satMul64 a b ≤ satMul64 a' b' :=
  min_le_min (Nat.mul_le_mul ha hb) (le_refl u64Max)

lemma satAdd64_le_u64Max (a b : Nat) : satAdd64 a b ≤ u64Max :=
  min_le_right _ _

/-- C10: the `as_multi_create` weight is monotone non-decreasing in both
benchmark components over their ranges (`s` in [2, 100], `z` in
[0, 10000]), and — because every operation saturates at `u64::MAX` — the
computed weight components never exceed `u64::MAX` for any `u32` inputs,
for every runtime database weight: no overflow or panic is possible. -/
theorem C10_as_multi_create_monotone (db : RuntimeDbWeight)
    (s1 z1 s2 z2 : Nat) (hs1 : 2 ≤ s1) (hs : s1 ≤ s2) (hs2 : s2 ≤ 100)
    (hz : z1 ≤ z2) (hz2 : z2 ≤ 10000) :
    (as_multi_create db s1 z1).ref_time ≤ (as_multi_create db s2 z2).ref_time ∧
    ∀ s z : Nat, s < 2 ^ 32 → z < 2 ^ 32 →
      (as_multi_create db s z).ref_time ≤ u64Max ∧
      (as_multi_create db s z).proof_size ≤ u64Max := by
  refine ⟨?_, fun s z _ _ => ⟨satAdd64_le_u64Max _ _, satAdd64_le_u64Max _ _⟩⟩
  simp only [as_multi_create, Weight.saturating_add, Weight.saturating_mul,
    Weight.from_parts, RuntimeDbWeight.reads, RuntimeDbWeight.writes]
  exact satAdd64_mono
    (satAdd64_mono
      (satAdd64_mono
        (satAdd64_mono (le_refl _) (satMul64_mono (le_refl 62042) hs))
        (satMul64_mono (le_refl 1178) hz))
      (le_refl _))
    (le_refl _)

/-- Witness for C10: the reference RocksDB weights, at the corners of the
benchmark ranges. -/
theorem C10_as_multi_create_monotone_witness :
    (as_multi_create ⟨25000000, 100000000⟩ 2 0).ref_time ≤
      (as_multi_create ⟨25000000, 100000000⟩ 100 10000).ref_time ∧
    ∀ s z : Nat, s < 2 ^ 32 → z < 2 ^ 32 →
      (as_multi_create ⟨25000000, 100000000⟩ s z).ref_time ≤ u64Max ∧
      (as_multi_create ⟨25000000, 100000000⟩ s z).proof_size ≤ u64Max :=
  C10_as_multi_create_monotone ⟨25000000, 100000000⟩ 2 0 100 10000
    (by decide) (by decide) (by decide) (by decide) (by decide)

end PalletMultisigWeights
